import Mathlib

/-!
Verification of the command construction and sanitization engine of
`src/software.go` (package install handler).  Go strings are modelled as
`List Char`; `strings.ReplaceAll` with a non-empty pattern is modelled by
the fuel-based `replaceAll` below (the fuel `s.length` is always enough
because every step consumes at least one character); `strings.Fields`,
`strings.TrimSpace` and `unicode.IsSpace` are modelled directly.  The
remote transport `runRemoteCommand` and the server registry `ipMap` live
outside this file and are passed to the handler as parameters.
-/

/-- The Unicode White_Space code points accepted by Go `unicode.IsSpace`. -/
def goIsSpace (c : Char) : Bool :=
  c.toNat = 9 || c.toNat = 10 || c.toNat = 11 || c.toNat = 12 || c.toNat = 13 ||
  c.toNat = 32 || c.toNat = 133 || c.toNat = 160 || c.toNat = 5760 ||
  (8192 ≤ c.toNat && c.toNat ≤ 8202) ||
  c.toNat = 8232 || c.toNat = 8233 || c.toNat = 8239 || c.toNat = 8287 ||
  c.toNat = 12288

/-- `listStartsWith pat s` holds when `pat` is a leading segment of `s`. -/
def listStartsWith : List Char → List Char → Bool
  | [], _ => true
  | _ :: _, [] => false
  | a :: as, b :: bs => if a = b then listStartsWith as bs else false

/-- One scan of Go `strings.Replace(s, old, new, -1)` with the given fuel:
at each position a match of `old` is replaced by `new` and the scan resumes
after the matched segment, exactly the non-overlapping leftmost semantics of
`strings.ReplaceAll`.  The fuel only bounds the recursion; it is set to
`s.length` by `replaceAll`, which is always sufficient. -/
def replaceFuel (old new : List Char) : Nat → List Char → List Char
  | _, [] => []
  | 0, s => s
  | f + 1, c :: cs =>
    if listStartsWith old (c :: cs) then
      new ++ replaceFuel old new f (List.drop (old.length - 1) cs)
    else
      c :: replaceFuel old new f cs

/-- Go `strings.ReplaceAll(s, old, new)` for the non-empty patterns used by
`software.go` (for `old = ""` we return `s`; the handler never calls it so). -/
def replaceAll (old new s : List Char) : List Char :=
  if old = [] then s else replaceFuel old new s.length s

/-- Worker for `fields`: `acc` holds the characters of the current field in
reverse order. -/
def fieldsAux : List Char → List Char → List (List Char)
  | acc, [] => if acc = [] then [] else [acc.reverse]
  | acc, c :: cs =>
    if goIsSpace c then
      if acc = [] then fieldsAux [] cs else acc.reverse :: fieldsAux [] cs
    else
      fieldsAux (c :: acc) cs

/-- Go `strings.Fields`: the maximal whitespace-free segments of `s`. -/
def fields (s : List Char) : List (List Char) :=
  fieldsAux [] s

/-- Go `strings.TrimSpace`. -/
def trimSpace (s : List Char) : List Char :=
  ((s.dropWhile goIsSpace).reverse.dropWhile goIsSpace).reverse

/-- The fixed disallowed token list of `sanitizePackageName`
(`software.go` line 151), in its source order. -/
def disallowed : List (List Char) :=
  [[';'], ['&', '&'], ['|', '|'], ['|'], ['>'], ['<'], ['$'], ['\x60'],
   ['\x22'], ['\x27'], ['('], [')'], ['\x7b'], ['\x7d'], ['['], [']'],
   ['\n'], ['\r']]

/-- `sanitizePackageName` (`software.go` lines 149-165): strip each
disallowed token in order by literal replacement, then keep only the first
whitespace-delimited field. -/
def sanitizePackageName (name : List Char) : List Char :=
  match fields (disallowed.foldl (fun acc t => replaceAll t [] acc) name) with
  | [] => []
  | p :: _ => p

/-- A catalog entry (`Software` struct of `software.go`). -/
structure Software where
  Name : List Char
  Description : List Char
  Command : List Char
  deriving DecidableEq

/-- The fixed ten-entry catalog `commonSoftware` (`software.go` lines 17-28). -/
def commonSoftware : List Software :=
  [⟨"nginx".toList, "Web server".toList, "apt install -y nginx".toList⟩,
   ⟨"python3".toList, "Python programming language".toList,
     "apt install -y python3".toList⟩,
   ⟨"nodejs".toList, "JavaScript runtime".toList,
     "apt install -y nodejs npm".toList⟩,
   ⟨"git".toList, "Version control system".toList, "apt install -y git".toList⟩,
   ⟨"docker".toList, "Container platform".toList,
     "apt install -y docker.io".toList⟩,
   ⟨"postgresql".toList, "SQL database".toList,
     "apt install -y postgresql postgresql-contrib".toList⟩,
   ⟨"mysql".toList, "MySQL database".toList,
     "apt install -y mysql-server mysql-client".toList⟩,
   ⟨"vim".toList, "Text editor".toList, "apt install -y vim".toList⟩,
   ⟨"curl".toList, "Command line tool for transferring data".toList,
     "apt install -y curl".toList⟩,
   ⟨"wget".toList, "Command line tool for retrieving files".toList,
     "apt install -y wget".toList⟩]

/-- The linear catalog scan of the handler's `common` branch
(`software.go` lines 77-85): first entry whose `Name` equals the selector. -/
def findSoftware (softwareName : List Char) : Option Software :=
  commonSoftware.find? (fun s => s.Name == softwareName)

/-- The fields of a registry entry that `software.go` reads. -/
structure Server where
  RootUsername : List Char
  RootPassword : List Char
  deriving DecidableEq

/-- Result of one handler invocation: either `http.Error` with a status and
message, or the rendered page together with the script that was passed to
`runRemoteCommand`. -/
inductive HandlerResult where
  | httpError : Nat → List Char → HandlerResult
  | page : List Char → List Char → HandlerResult
  deriving DecidableEq

/-- The script builder of `software.go` lines 106-124.  Returns the full
script (first component) and the final value of the `installCommand`
variable after the branch's rewriting (second component, the one the log
prints). -/
def buildScript (server : Server) (installCommand : List Char) :
    List Char × List Char :=
  if server.RootUsername = "root".toList then
    let ic := replaceAll "apt install -y".toList "apk add".toList installCommand
    ("apk update && ".toList ++ ic, ic)
  else
    let ic := replaceAll "apk add".toList "apt install -y".toList installCommand
    ("echo \x27".toList ++ server.RootPassword ++
       "\x27 | sudo -S apt update && echo \x27".toList ++ server.RootPassword ++
       "\x27 | sudo -S ".toList ++ ic, ic)

/-- Modelled from the spec (§9 open question): the script builder with the
non-root branch's defensive `apk add` → `apt install -y` normalization
removed, used to state that the normalization is dead code on every
reachable input. -/
def buildScriptPlain (server : Server) (installCommand : List Char) :
    List Char × List Char :=
  if server.RootUsername = "root".toList then
    let ic := replaceAll "apt install -y".toList "apk add".toList installCommand
    ("apk update && ".toList ++ ic, ic)
  else
    ("echo \x27".toList ++ server.RootPassword ++
       "\x27 | sudo -S apt update && echo \x27".toList ++ server.RootPassword ++
       "\x27 | sudo -S ".toList ++ installCommand, installCommand)

/-- The log rendering of `software.go` lines 129-141. -/
def renderLog (serverIP installCommand output : List Char)
    (err : Option (List Char)) : List Char :=
  "📦 Software Installation Log\n\n".toList ++
  "Server: ".toList ++ serverIP ++ "\n".toList ++
  "Command: ".toList ++ installCommand ++ "\n\n".toList ++
  (match err with
   | some e => "❌ Installation failed: ".toList ++ e ++ "\n\n".toList
   | none => "✅ Installation command executed successfully\n\n".toList) ++
  "Output:\n".toList ++ output

/-- Lines 106-145 of `software.go`: build the script, run it remotely,
render the log. -/
def finishInstall (serverIP : List Char) (server : Server)
    (installCommand : List Char)
    (remote : List Char → List Char × Option (List Char)) : HandlerResult :=
  let script := (buildScript server installCommand).1
  let res := remote script
  HandlerResult.page script
    (renderLog serverIP (buildScript server installCommand).2 res.1 res.2)

/-- `installSoftwareHandler` (`software.go` lines 43-146).  `parseFormErr`
is the result of `r.ParseForm()`, the four string arguments are the form
values the handler reads, `ipMap` is the external server registry and
`remote` the external transport `runRemoteCommand` (restricted to the
script argument, the only one that varies in a single invocation). -/
def installSoftwareHandler (method : List Char)
    (parseFormErr : Option (List Char))
    (server_ip software_type common_software custom_software : List Char)
    (ipMap : List Char → Option Server)
    (remote : List Char → List Char × Option (List Char)) : HandlerResult :=
  if method ≠ "POST".toList then
    HandlerResult.httpError 405 "Method not allowed".toList
  else
    match parseFormErr with
    | some e => HandlerResult.httpError 400 ("Error parsing form: ".toList ++ e)
    | none =>
      if server_ip = [] then
        HandlerResult.httpError 400 "Server IP is required".toList
      else
        match ipMap server_ip with
        | none => HandlerResult.httpError 404 "Server not found".toList
        | some server =>
          if software_type = "common".toList then
            match findSoftware common_software with
            | none =>
              HandlerResult.httpError 400 "Selected software not found".toList
            | some sw => finishInstall server_ip server sw.Command remote
          else if software_type = "custom".toList then
            if trimSpace custom_software = [] then
              HandlerResult.httpError 400
                "Custom software name is required".toList
            else
              finishInstall server_ip server
                ("apt install -y ".toList ++
                  sanitizePackageName (trimSpace custom_software)) remote
          else
            HandlerResult.httpError 400 "Invalid software type".toList

/-- `listStartsWith` decides list-prefix. -/
theorem listStartsWith_iff :
    ∀ pat s : List Char, listStartsWith pat s = true ↔ pat <+: s := by
  intro pat
  induction pat with
  | nil =>
    intro s
    simp [listStartsWith]
  | cons a as ih =>
    intro s
    cases s with
    | nil => simp [listStartsWith]
    | cons b bs =>
      by_cases hab : a = b
      · subst hab
        simp [listStartsWith, List.cons_prefix_cons, ih bs]
      · simp [listStartsWith, hab, List.cons_prefix_cons]

/-- Removal (replacement by the empty string) only deletes characters. -/
theorem mem_replaceFuel_nil {old : List Char} {a : Char} :
    ∀ (f : Nat) (s : List Char), a ∈ replaceFuel old [] f s → a ∈ s := by
  intro f
  induction f with
  | zero =>
    intro s h
    cases s with
    | nil => simpa [replaceFuel] using h
    | cons c cs => simpa [replaceFuel] using h
  | succ f ih =>
    intro s h
    cases s with
    | nil => simpa [replaceFuel] using h
    | cons c cs =>
      simp only [replaceFuel] at h
      by_cases hs : listStartsWith old (c :: cs) = true
      · rw [if_pos hs] at h
        simp only [List.nil_append] at h
        exact List.mem_cons_of_mem c (List.mem_of_mem_drop (ih _ h))
      · rw [if_neg hs] at h
        rcases List.mem_cons.mp h with h | h
        · exact h ▸ List.mem_cons_self c cs
        · exact List.mem_cons_of_mem c (ih _ h)

/-- `replaceAll old [] s` only deletes characters of `s`. -/
theorem mem_replaceAll_nil {old : List Char} {a : Char} {s : List Char}
    (h : a ∈ replaceAll old [] s) : a ∈ s := by
  unfold replaceAll at h
  by_cases h0 : old = []
  · rwa [if_pos h0] at h
  · rw [if_neg h0] at h
    exact mem_replaceFuel_nil _ _ h

/-- Removing a single-character token removes every occurrence of the
character, provided the fuel covers the string. -/
theorem not_mem_replaceFuel_single {c : Char} :
    ∀ (f : Nat) (s : List Char), s.length ≤ f →
      c ∉ replaceFuel [c] [] f s := by
  intro f
  induction f with
  | zero =>
    intro s hl
    interval_cases hs : s.length
    rw [List.length_eq_zero] at hs
    subst hs
    simp [replaceFuel]
  | succ f ih =>
    intro s hl
    cases s with
    | nil => simp [replaceFuel]
    | cons d ds =>
      simp only [replaceFuel]
      by_cases hdc : c = d
      · subst hdc
        have : listStartsWith [c] (c :: ds) = true := by
          simp [listStartsWith]
        rw [if_pos this]
        simp only [List.nil_append, List.drop_zero]
        exact ih ds (by simpa using hl)
      · have : ¬ listStartsWith [c] (d :: ds) = true := by
          simp [listStartsWith, hdc]
        rw [if_neg this]
        intro hmem
        rcases List.mem_cons.mp hmem with h | h
        · exact hdc h
        · exact ih ds (by simpa using Nat.le_of_succ_le_succ hl) h

/-- Variant of `not_mem_replaceFuel_single` at the fuel `replaceAll` uses. -/
theorem not_mem_replaceAll_single {c : Char} (s : List Char) :
    c ∉ replaceAll [c] [] s := by
  unfold replaceAll
  rw [if_neg (by simp : ¬ ([c] : List Char) = [])]
  exact not_mem_replaceFuel_single _ _ le_rfl

/-- Absence of a character is preserved by the removal fold of the
sanitizer. -/
theorem not_mem_foldl_removals {c : Char} :
    ∀ (L : List (List Char)) (x : List Char), c ∉ x →
      c ∉ L.foldl (fun acc t => replaceAll t [] acc) x := by
  intro L
  induction L with
  | nil => intro x hx; simpa using hx
  | cons t ts ih =>
    intro x hx
    simp only [List.foldl_cons]
    exact ih _ (fun h => hx (mem_replaceAll_nil h))

/-- Every character of every field comes from the scanned string or the
accumulator. -/
theorem mem_of_mem_fieldsAux {a : Char} :
    ∀ (s acc fd : List Char), fd ∈ fieldsAux acc s → a ∈ fd →
      a ∈ acc ∨ a ∈ s := by
  intro s
  induction s with
  | nil =>
    intro acc fd hfd ha
    by_cases hacc : acc = []
    · subst hacc
      simp [fieldsAux] at hfd
    · rw [fieldsAux, if_neg hacc] at hfd
      simp only [List.mem_singleton] at hfd
      subst hfd
      exact Or.inl (List.mem_reverse.mp ha)
  | cons c cs ih =>
    intro acc fd hfd ha
    rw [fieldsAux] at hfd
    by_cases hsp : goIsSpace c = true
    · rw [if_pos hsp] at hfd
      by_cases hacc : acc = []
      · rw [if_pos hacc] at hfd
        rcases ih [] fd hfd ha with h | h
        · simp at h
        · exact Or.inr (List.mem_cons_of_mem c h)
      · rw [if_neg hacc] at hfd
        rcases List.mem_cons.mp hfd with h | h
        · subst h
          exact Or.inl (List.mem_reverse.mp ha)
        · rcases ih [] fd h ha with h2 | h2
          · simp at h2
          · exact Or.inr (List.mem_cons_of_mem c h2)
    · rw [if_neg hsp] at hfd
      rcases ih (c :: acc) fd hfd ha with h | h
      · rcases List.mem_cons.mp h with h2 | h2
        · exact Or.inr (h2 ▸ List.mem_cons_self c cs)
        · exact Or.inl h2
      · exact Or.inr (List.mem_cons_of_mem c h)

/-- Fields contain no whitespace characters (the accumulator invariant is
that it is whitespace-free). -/
theorem fieldsAux_no_space {a : Char} :
    ∀ (s acc fd : List Char), (∀ b ∈ acc, goIsSpace b = false) →
      fd ∈ fieldsAux acc s → a ∈ fd → goIsSpace a = false := by
  intro s
  induction s with
  | nil =>
    intro acc fd hacc hfd ha
    by_cases h0 : acc = []
    · subst h0
      simp [fieldsAux] at hfd
    · rw [fieldsAux, if_neg h0] at hfd
      simp only [List.mem_singleton] at hfd
      subst hfd
      exact hacc a (List.mem_reverse.mp ha)
  | cons c cs ih =>
    intro acc fd hacc hfd ha
    rw [fieldsAux] at hfd
    by_cases hsp : goIsSpace c = true
    · rw [if_pos hsp] at hfd
      by_cases h0 : acc = []
      · rw [if_pos h0] at hfd
        exact ih [] fd (by simp) hfd ha
      · rw [if_neg h0] at hfd
        rcases List.mem_cons.mp hfd with h | h
        · subst h
          exact hacc a (List.mem_reverse.mp ha)
        · exact ih [] fd (by simp) h ha
    · rw [if_neg hsp] at hfd
      refine ih (c :: acc) fd ?_ hfd ha
      intro b hb
      rcases List.mem_cons.mp hb with h | h
      · subst h
        exact Bool.eq_false_iff.mpr hsp
      · exact hacc b h

/-- Every character of the sanitizer's output survives the removal fold. -/
theorem mem_sanitize_mem_fold {a : Char} {s : List Char}
    (h : a ∈ sanitizePackageName s) :
    a ∈ disallowed.foldl (fun acc t => replaceAll t [] acc) s := by
  unfold sanitizePackageName at h
  rcases hfd : fields (disallowed.foldl (fun acc t => replaceAll t [] acc) s)
    with _ | ⟨p, ps⟩
  · rw [hfd] at h
    simp at h
  · rw [hfd] at h
    have hp : p ∈ fieldsAux []
        (disallowed.foldl (fun acc t => replaceAll t [] acc) s) := by
      rw [← fields, hfd]
      exact List.mem_cons_self p ps
    rcases mem_of_mem_fieldsAux _ [] p hp h with h2 | h2
    · simp at h2
    · exact h2

/-- The sanitizer's output never contains a character that occurs as a
single-character disallowed token. -/
theorem single_token_not_mem_sanitize {c : Char} {s : List Char}
    (hc : [c] ∈ disallowed) : c ∉ sanitizePackageName s := by
  intro hmem
  have hfold := mem_sanitize_mem_fold hmem
  rcases List.append_of_mem hc with ⟨l1, l2, hsplit⟩
  rw [hsplit, List.foldl_append, List.foldl_cons] at hfold
  exact not_mem_foldl_removals l2 _
    (not_mem_replaceAll_single (List.foldl (fun acc t => replaceAll t [] acc) s l1))
    hfold

/-- The sanitizer's output is whitespace-free. -/
theorem sanitize_no_space {a : Char} {s : List Char}
    (h : a ∈ sanitizePackageName s) : goIsSpace a = false := by
  unfold sanitizePackageName at h
  rcases hfd : fields (disallowed.foldl (fun acc t => replaceAll t [] acc) s)
    with _ | ⟨p, ps⟩
  · rw [hfd] at h
    simp at h
  · rw [hfd] at h
    have hp : p ∈ fieldsAux []
        (disallowed.foldl (fun acc t => replaceAll t [] acc) s) := by
      rw [← fields, hfd]
      exact List.mem_cons_self p ps
    exact fieldsAux_no_space _ [] p (by simp) hp h

/-- A pattern that occurs nowhere in the string is not replaced. -/
theorem replaceFuel_of_not_infix {old new : List Char} :
    ∀ (f : Nat) (s : List Char), ¬ old <:+: s →
      replaceFuel old new f s = s := by
  intro f
  induction f with
  | zero =>
    intro s _
    cases s with
    | nil => simp [replaceFuel]
    | cons c cs => simp [replaceFuel]
  | succ f ih =>
    intro s hinf
    cases s with
    | nil => simp [replaceFuel]
    | cons c cs =>
      simp only [replaceFuel]
      have hns : ¬ listStartsWith old (c :: cs) = true := by
        intro h
        exact hinf ((listStartsWith_iff old (c :: cs)).mp h).isInfix
      rw [if_neg hns]
      rw [ih cs (fun h => hinf (h.trans (List.suffix_cons c cs).isInfix))]

/-- `replaceAll` is the identity when the pattern occurs nowhere. -/
theorem replaceAll_of_not_infix {old new s : List Char}
    (h : ¬ old <:+: s) : replaceAll old new s = s := by
  unfold replaceAll
  by_cases h0 : old = []
  · rw [if_pos h0]
  · rw [if_neg h0]
    exact replaceFuel_of_not_infix _ _ h

/-- The literal `"apk add"` cannot occur in `"apt install -y "` followed by
a whitespace-free token: its space character would have to land on one of
the three spaces of the fixed segment, and none of those alignments
matches. -/
theorem apk_add_not_infix {T : List Char}
    (hT : ∀ a ∈ T, goIsSpace a = false) :
    ¬ ("apk add".toList <:+: ("apt install -y ".toList ++ T)) := by
  rintro ⟨u, v, huv⟩
  have hpre : "apk add".toList ++ v =
      List.drop u.length ("apt install -y ".toList ++ T) := by
    rw [← huv, List.append_assoc, List.drop_left]
  by_cases hi : 15 ≤ u.length
  · obtain ⟨j, hj⟩ := Nat.exists_eq_add_of_le hi
    rw [hj] at hpre
    have hP15 : ("apt install -y ".toList).length = 15 := by decide
    rw [← List.drop_drop, ← hP15, List.drop_left] at hpre
    have hsp : (' ' : Char) ∈ List.drop j T := by
      rw [← hpre]
      exact List.mem_append_left _ (by decide)
    exact absurd (hT ' ' (List.mem_of_mem_drop hsp)) (by decide)
  · push_neg at hi
    have hP : "apt install -y ".toList =
        ['a', 'p', 't', ' ', 'i', 'n', 's', 't', 'a', 'l', 'l', ' ', '-',
         'y', ' '] := by decide
    have hN : "apk add".toList = ['a', 'p', 'k', ' ', 'a', 'd', 'd'] := by
      decide
    rw [hP, hN] at hpre
    generalize hu : u.length = i at hpre hi
    interval_cases i <;>
      simp only [List.drop_succ_cons, List.drop_zero, List.cons_append,
        List.nil_append, List.cons.injEq] at hpre <;>
      simp at hpre

/-- The two mode selector literals differ. -/
theorem custom_ne_common : "custom".toList ≠ "common".toList := by decide

/-- Exhaustive control-flow split of `installSoftwareHandler`: every
invocation either yields an `http.Error` independently of the remote
transport, or reaches `finishInstall` with every validation check passed
and the install command determined by the branch taken. -/
theorem handler_cases (method : List Char) (pf : Option (List Char))
    (sip st cs cu : List Char) (ipM : List Char → Option Server) :
    (∃ code msg, ∀ r2 : List Char → List Char × Option (List Char),
        installSoftwareHandler method pf sip st cs cu ipM r2 =
          HandlerResult.httpError code msg) ∨
    (∃ server ic, ipM sip = some server ∧
        method = "POST".toList ∧ pf = none ∧ sip ≠ [] ∧
        ((st = "common".toList ∧
            ∃ sw, findSoftware cs = some sw ∧ ic = sw.Command) ∨
         (st = "custom".toList ∧ trimSpace cu ≠ [] ∧
            ic = "apt install -y ".toList ++
              sanitizePackageName (trimSpace cu))) ∧
        ∀ r2 : List Char → List Char × Option (List Char),
          installSoftwareHandler method pf sip st cs cu ipM r2 =
            finishInstall sip server ic r2) := by
  by_cases hm : method = "POST".toList
  · cases pf with
    | some e =>
      refine Or.inl ⟨400, "Error parsing form: ".toList ++ e, fun r2 => ?_⟩
      unfold installSoftwareHandler
      rw [if_neg (fun hh => hh hm)]
    | none =>
      by_cases hsip : sip = []
      · refine Or.inl ⟨400, "Server IP is required".toList, fun r2 => ?_⟩
        unfold installSoftwareHandler
        rw [if_neg (fun hh => hh hm)]
        show (if sip = [] then _ else _ : HandlerResult) = _
        rw [if_pos hsip]
      · cases hserver : ipM sip with
        | none =>
          refine Or.inl ⟨404, "Server not found".toList, fun r2 => ?_⟩
          unfold installSoftwareHandler
          rw [if_neg (fun hh => hh hm)]
          show (if sip = [] then _ else _ : HandlerResult) = _
          rw [if_neg hsip, hserver]
        | some server =>
          by_cases hst : st = "common".toList
          · cases hfind : findSoftware cs with
            | none =>
              refine Or.inl ⟨400, "Selected software not found".toList,
                fun r2 => ?_⟩
              unfold installSoftwareHandler
              rw [if_neg (fun hh => hh hm)]
              show (if sip = [] then _ else _ : HandlerResult) = _
              rw [if_neg hsip, hserver]
              show (if st = "common".toList then _ else _ :
                HandlerResult) = _
              rw [if_pos hst, hfind]
            | some sw =>
              refine Or.inr ⟨server, sw.Command, rfl, hm, rfl, hsip,
                Or.inl ⟨hst, sw, rfl, rfl⟩, fun r2 => ?_⟩
              unfold installSoftwareHandler
              rw [if_neg (fun hh => hh hm)]
              show (if sip = [] then _ else _ : HandlerResult) = _
              rw [if_neg hsip, hserver]
              show (if st = "common".toList then _ else _ :
                HandlerResult) = _
              rw [if_pos hst, hfind]
          · by_cases hst2 : st = "custom".toList
            · by_cases hcu : trimSpace cu = []
              · refine Or.inl ⟨400,
                  "Custom software name is required".toList, fun r2 => ?_⟩
                unfold installSoftwareHandler
                rw [if_neg (fun hh => hh hm)]
                show (if sip = [] then _ else _ : HandlerResult) = _
                rw [if_neg hsip, hserver]
                show (if st = "common".toList then _ else _ :
                  HandlerResult) = _
                rw [if_neg hst, if_pos hst2, if_pos hcu]
              · refine Or.inr ⟨server,
                  "apt install -y ".toList ++
                    sanitizePackageName (trimSpace cu),
                  rfl, hm, rfl, hsip, Or.inr ⟨hst2, hcu, rfl⟩,
                  fun r2 => ?_⟩
                unfold installSoftwareHandler
                rw [if_neg (fun hh => hh hm)]
                show (if sip = [] then _ else _ : HandlerResult) = _
                rw [if_neg hsip, hserver]
                show (if st = "common".toList then _ else _ :
                  HandlerResult) = _
                rw [if_neg hst, if_pos hst2, if_neg hcu]
            · refine Or.inl ⟨400, "Invalid software type".toList,
                fun r2 => ?_⟩
              unfold installSoftwareHandler
              rw [if_neg (fun hh => hh hm)]
              show (if sip = [] then _ else _ : HandlerResult) = _
              rw [if_neg hsip, hserver]
              show (if st = "common".toList then _ else _ :
                HandlerResult) = _
              rw [if_neg hst, if_neg hst2]
  · refine Or.inl ⟨405, "Method not allowed".toList, fun r2 => ?_⟩
    unfold installSoftwareHandler
    rw [if_pos hm]

/-- C1: the claim is false as stated: on the input `"&|&"` the removal of
the later token `"|"` joins the two surviving ampersands, so the output
`"&&"` is itself a disallowed token occurring in the output. -/
theorem c1_sanitize_counterexample :
    sanitizePackageName ['&', '|', '&'] = ['&', '&'] ∧
    ['&', '&'] ∈ disallowed ∧
    (['&', '&'] <:+: sanitizePackageName ['&', '|', '&']) := by
  refine ⟨by decide, by decide, ?_⟩
  rw [(by decide : sanitizePackageName ['&', '|', '&'] = ['&', '&'])]

/-- C1 (amended): for every input, the sanitizer's output contains no
occurrence of any disallowed token other than `"&&"`, which alone can be
reintroduced when a later removal joins two ampersands; the removals are
literal substring replacements once per token in the fixed list order. -/
theorem c1_sanitize_amended (s t : List Char) (ht : t ∈ disallowed)
    (hne : t ≠ ['&', '&']) : ¬ (t <:+: sanitizePackageName s) := by
  intro hinf
  have key : ∀ u ∈ disallowed, u ≠ ['&', '&'] →
      [u.headI] ∈ disallowed ∧ u.headI ∈ u := by decide
  obtain ⟨hc, hct⟩ := key t ht hne
  exact single_token_not_mem_sanitize hc (hinf.sublist.subset hct)

/-- Closed instance of `c1_sanitize_amended`. -/
theorem c1_sanitize_amended_witness :
    ¬ ([';'] <:+: sanitizePackageName "a;b".toList) :=
  c1_sanitize_amended "a;b".toList [';'] (by decide) (by decide)

/-- C4: on a non-root profile with secret `"pw"`, composing the catalog
entry `"git"` yields exactly the password-piped sudo command. -/
theorem c4_nonroot_git_compose (server : Server)
    (hu : server.RootUsername ≠ "root".toList)
    (hp : server.RootPassword = "pw".toList) :
    ∃ sw, findSoftware "git".toList = some sw ∧
      (buildScript server sw.Command).1 =
        ("echo \x27pw\x27 | sudo -S apt update && " ++
          "echo \x27pw\x27 | sudo -S apt install -y git").toList := by
  refine ⟨⟨"git".toList, "Version control system".toList,
    "apt install -y git".toList⟩, by decide, ?_⟩
  unfold buildScript
  rw [if_neg hu, hp]
  decide

/-- Closed instance of `c4_nonroot_git_compose`. -/
theorem c4_nonroot_git_compose_witness :
    ∃ sw, findSoftware "git".toList = some sw ∧
      (buildScript ⟨"admin".toList, "pw".toList⟩ sw.Command).1 =
        ("echo \x27pw\x27 | sudo -S apt update && " ++
          "echo \x27pw\x27 | sudo -S apt install -y git").toList :=
  c4_nonroot_git_compose ⟨"admin".toList, "pw".toList⟩ (by decide) (by decide)

/-- C5: on a root profile, composing the catalog entry `"nginx"` yields
exactly `"apk update && apk add nginx"`: the update step is prefixed and
`"apt install -y"` is rewritten to `"apk add"`. -/
theorem c5_root_nginx_compose (server : Server)
    (hu : server.RootUsername = "root".toList) :
    ∃ sw, findSoftware "nginx".toList = some sw ∧
      (buildScript server sw.Command).1 =
        "apk update && apk add nginx".toList := by
  refine ⟨⟨"nginx".toList, "Web server".toList,
    "apt install -y nginx".toList⟩, by decide, ?_⟩
  unfold buildScript
  rw [if_pos hu]
  decide

/-- Closed instance of `c5_root_nginx_compose`. -/
theorem c5_root_nginx_compose_witness :
    ∃ sw, findSoftware "nginx".toList = some sw ∧
      (buildScript ⟨"root".toList, "pw".toList⟩ sw.Command).1 =
        "apk update && apk add nginx".toList :=
  c5_root_nginx_compose ⟨"root".toList, "pw".toList⟩ (by decide)

/-- C6: catalog resolution is an exact case-sensitive lookup over the
fixed ten-entry catalog: a selector equal to one of the ten names resolves
to the unique (hence first) entry carrying that name, and every other
selector yields no entry. -/
theorem c6_catalog_resolution (k : List Char) :
    (k ∈ commonSoftware.map Software.Name →
      ∃ e, findSoftware k = some e ∧ e.Name = k ∧ e ∈ commonSoftware ∧
        ∀ e2 ∈ commonSoftware, e2.Name = k → e2 = e) ∧
    (k ∉ commonSoftware.map Software.Name → findSoftware k = none) := by
  constructor
  · intro hk
    rcases List.mem_map.mp hk with ⟨e0, he0, hname⟩
    have hsome : (commonSoftware.find? (fun s => s.Name == k)).isSome := by
      rw [List.find?_isSome]
      exact ⟨e0, he0, by simp [hname]⟩
    rcases Option.isSome_iff_exists.mp hsome with ⟨e, he⟩
    have hename : e.Name = k := by
      have := List.find?_some he
      simpa using this
    have hemem : e ∈ commonSoftware := List.mem_of_find?_eq_some he
    refine ⟨e, he, hename, hemem, ?_⟩
    intro e2 h2 hn2
    have hnodup : (commonSoftware.map Software.Name).Nodup := by decide
    exact List.inj_on_of_nodup_map hnodup h2 hemem (hn2.trans hename.symm)
  · intro hk
    unfold findSoftware
    rw [List.find?_eq_none]
    intro x hx
    simp only [beq_iff_eq]
    intro heq
    exact hk (List.mem_map.mpr ⟨x, hx, heq⟩)

/-- Closed instance of `c6_catalog_resolution`: `"git"` resolves, the
upper-case selector `"GIT"` does not. -/
theorem c6_catalog_resolution_witness :
    (∃ e, findSoftware "git".toList = some e ∧ e.Name = "git".toList ∧
      e ∈ commonSoftware ∧
      ∀ e2 ∈ commonSoftware, e2.Name = "git".toList → e2 = e) ∧
    findSoftware "GIT".toList = none :=
  ⟨(c6_catalog_resolution "git".toList).1 (by decide),
   (c6_catalog_resolution "GIT".toList).2 (by decide)⟩

/-- C7: on each of the ten catalog verbs, the apt-to-apk rewriting followed
by the apk-to-apt rewriting restores the original verb. -/
theorem c7_apt_apk_roundtrip :
    ∀ sw ∈ commonSoftware,
      replaceAll "apk add".toList "apt install -y".toList
        (replaceAll "apt install -y".toList "apk add".toList sw.Command) =
      sw.Command := by
  intro sw hsw
  fin_cases hsw <;> decide

/-- Closed instance of `c7_apt_apk_roundtrip`. -/
theorem c7_apt_apk_roundtrip_witness :
    replaceAll "apk add".toList "apt install -y".toList
      (replaceAll "apt install -y".toList "apk add".toList
        "apt install -y nginx".toList) = "apt install -y nginx".toList :=
  c7_apt_apk_roundtrip
    ⟨"nginx".toList, "Web server".toList, "apt install -y nginx".toList⟩
    (by decide)

/-- C10: for root profiles the composed command text does not depend on the
root password: any two root profiles produce the same script for the same
install command. -/
theorem c10_root_secret_independence (s1 s2 : Server) (ic : List Char)
    (h1 : s1.RootUsername = "root".toList)
    (h2 : s2.RootUsername = "root".toList) :
    (buildScript s1 ic).1 = (buildScript s2 ic).1 := by
  unfold buildScript
  rw [if_pos h1, if_pos h2]

/-- Closed instance of `c10_root_secret_independence`. -/
theorem c10_root_secret_independence_witness :
    (buildScript ⟨"root".toList, "hunter2".toList⟩
      "apt install -y nginx".toList).1 =
    (buildScript ⟨"root".toList, "swordfish".toList⟩
      "apt install -y nginx".toList).1 :=
  c10_root_secret_independence ⟨"root".toList, "hunter2".toList⟩
    ⟨"root".toList, "swordfish".toList⟩ "apt install -y nginx".toList
    (by decide) (by decide)

set_option maxRecDepth 4096 in
/-- C2: the code-level divergence: the handler checks emptiness of the
trimmed raw name before sanitizing, so the input `";"` passes the check,
sanitizes to the empty token, and the command `"apt install -y "` is still
composed and handed to the remote transport instead of being rejected. -/
theorem c2_empty_token_executed :
    sanitizePackageName (trimSpace ";".toList) = [] ∧
    installSoftwareHandler "POST".toList none "10.0.0.1".toList
        "custom".toList [] ";".toList
        (fun ip => if ip = "10.0.0.1".toList
          then some ⟨"admin".toList, "pw".toList⟩ else none)
        (fun _ => ("out".toList, none)) =
      HandlerResult.page
        ("echo \x27pw\x27 | sudo -S apt update && " ++
          "echo \x27pw\x27 | sudo -S apt install -y ").toList
        (renderLog "10.0.0.1".toList "apt install -y ".toList
          "out".toList none) := by
  constructor
  · decide
  · decide

set_option maxRecDepth 8192 in
/-- C3: the claim is false as stated: the rendered log prints the
`installCommand` value (here `"apk add nginx"`), while the text passed to
the remote transport is the full script `"apk update && apk add nginx"`,
which does not occur in the log. -/
theorem c3_log_counterexample :
    installSoftwareHandler "POST".toList none "10.0.0.1".toList
        "common".toList "nginx".toList []
        (fun ip => if ip = "10.0.0.1".toList
          then some ⟨"root".toList, "secret".toList⟩ else none)
        (fun _ => ("ok".toList, none)) =
      HandlerResult.page "apk update && apk add nginx".toList
        (renderLog "10.0.0.1".toList "apk add nginx".toList
          "ok".toList none) ∧
    ¬ ("apk update && apk add nginx".toList <:+:
        renderLog "10.0.0.1".toList "apk add nginx".toList
          "ok".toList none) := by
  constructor
  · decide
  · decide

/-- C3 (amended): every executed request's log contains, in order, the
fixed header, the target server address, the translated install command
(the composed script with its update-step prefix or privilege wrapper
stripped — not the full script passed to the transport), a distinct
success or failure marker, and the raw remote output appended last. -/
theorem c3_log_amended (method : List Char) (pf : Option (List Char))
    (sip st cs cu : List Char) (ipM : List Char → Option Server)
    (remote : List Char → List Char × Option (List Char)) (s lg : List Char)
    (h : installSoftwareHandler method pf sip st cs cu ipM remote =
      HandlerResult.page s lg) :
    ∃ server ic, ipM sip = some server ∧
      lg = "📦 Software Installation Log\n\n".toList ++
        "Server: ".toList ++ sip ++ "\n".toList ++
        "Command: ".toList ++ ic ++ "\n\n".toList ++
        (match (remote s).2 with
         | some e => "❌ Installation failed: ".toList ++ e ++ "\n\n".toList
         | none =>
           "✅ Installation command executed successfully\n\n".toList) ++
        "Output:\n".toList ++ (remote s).1 ∧
      ((server.RootUsername = "root".toList ∧
          s = "apk update && ".toList ++ ic) ∨
       (server.RootUsername ≠ "root".toList ∧
          s = "echo \x27".toList ++ server.RootPassword ++
            "\x27 | sudo -S apt update && echo \x27".toList ++
            server.RootPassword ++ "\x27 | sudo -S ".toList ++ ic)) := by
  rcases handler_cases method pf sip st cs cu ipM with
    ⟨code, msg, hall⟩ | ⟨server, ic0, hserver, _, _, _, _, hfin⟩
  · rw [hall remote] at h
    simp at h
  · rw [hfin remote] at h
    simp only [finishInstall] at h
    rw [HandlerResult.page.injEq] at h
    obtain ⟨hs, hlg⟩ := h
    by_cases hroot : server.RootUsername = "root".toList
    · have hbs : buildScript server ic0 =
          ("apk update && ".toList ++
            replaceAll "apt install -y".toList "apk add".toList ic0,
           replaceAll "apt install -y".toList "apk add".toList ic0) := by
        unfold buildScript
        rw [if_pos hroot]
      simp only [hbs] at hs hlg
      rw [hs] at hlg
      refine ⟨server,
        replaceAll "apt install -y".toList "apk add".toList ic0,
        hserver, ?_, Or.inl ⟨hroot, hs.symm⟩⟩
      rw [← hlg, renderLog.eq_def]
    · have hbs : buildScript server ic0 =
          ("echo \x27".toList ++ server.RootPassword ++
            "\x27 | sudo -S apt update && echo \x27".toList ++
            server.RootPassword ++ "\x27 | sudo -S ".toList ++
            replaceAll "apk add".toList "apt install -y".toList ic0,
           replaceAll "apk add".toList "apt install -y".toList ic0) := by
        unfold buildScript
        rw [if_neg hroot]
      simp only [hbs] at hs hlg
      rw [hs] at hlg
      refine ⟨server,
        replaceAll "apk add".toList "apt install -y".toList ic0,
        hserver, ?_, Or.inr ⟨hroot, hs.symm⟩⟩
      rw [← hlg, renderLog.eq_def]

/-- Closed instance of `c3_log_amended`. -/
theorem c3_log_amended_witness :
    ∃ server ic,
      some (Server.mk "root".toList "secret".toList) = some server ∧
      renderLog "10.0.0.1".toList "apk add nginx".toList "ok".toList none =
        "📦 Software Installation Log\n\n".toList ++
          "Server: ".toList ++ "10.0.0.1".toList ++ "\n".toList ++
          "Command: ".toList ++ ic ++ "\n\n".toList ++
          "✅ Installation command executed successfully\n\n".toList ++
          "Output:\n".toList ++ "ok".toList ∧
      ((server.RootUsername = "root".toList ∧
          "apk update && apk add nginx".toList =
            "apk update && ".toList ++ ic) ∨
       (server.RootUsername ≠ "root".toList ∧
          "apk update && apk add nginx".toList =
            "echo \x27".toList ++ server.RootPassword ++
              "\x27 | sudo -S apt update && echo \x27".toList ++
              server.RootPassword ++ "\x27 | sudo -S ".toList ++ ic)) :=
  c3_log_amended "POST".toList none "10.0.0.1".toList "common".toList
    "nginx".toList []
    (fun _ => some (Server.mk "root".toList "secret".toList))
    (fun _ => ("ok".toList, none))
    "apk update && apk add nginx".toList
    (renderLog "10.0.0.1".toList "apk add nginx".toList "ok".toList none)
    (by decide)

/-- C8: validation and lookup failures short-circuit: under any of the
seven failure conditions the handler returns an `http.Error` whose value
does not depend on the remote transport (so no remote call is observable);
conversely, when the request executes and the remote call fails, the error
text is rendered inside the log after the failure marker and the captured
output is still appended last. -/
theorem c8_error_policy (method : List Char) (pf : Option (List Char))
    (sip st cs cu : List Char) (ipM : List Char → Option Server)
    (remote : List Char → List Char × Option (List Char)) :
    ((method ≠ "POST".toList ∨ pf ≠ none ∨ sip = [] ∨ ipM sip = none ∨
        (st = "common".toList ∧ findSoftware cs = none) ∨
        (st = "custom".toList ∧ trimSpace cu = []) ∨
        (st ≠ "common".toList ∧ st ≠ "custom".toList)) →
      ∃ code msg, ∀ r2 : List Char → List Char × Option (List Char),
        installSoftwareHandler method pf sip st cs cu ipM r2 =
          HandlerResult.httpError code msg) ∧
    (∀ s lg e,
      installSoftwareHandler method pf sip st cs cu ipM remote =
        HandlerResult.page s lg →
      (remote s).2 = some e →
      (("❌ Installation failed: ".toList ++ e ++ "\n\n".toList) <:+: lg) ∧
      (("Output:\n".toList ++ (remote s).1) <:+ lg)) := by
  rcases handler_cases method pf sip st cs cu ipM with
    ⟨code, msg, hall⟩ | ⟨server, ic0, hserver, hm, hpf, hsip, hbranch, hfin⟩
  · refine ⟨fun _ => ⟨code, msg, hall⟩, fun s lg e hpage _ => ?_⟩
    rw [hall remote] at hpage
    simp at hpage
  · constructor
    · intro hcond
      exfalso
      rcases hcond with h | h | h | h | ⟨h1, h2⟩ | ⟨h1, h2⟩ | ⟨h1, h2⟩
      · exact h hm
      · exact h hpf
      · exact hsip h
      · rw [h] at hserver
        exact Option.noConfusion hserver
      · rcases hbranch with ⟨_, sw, hsw, _⟩ | ⟨hcust, _, _⟩
        · rw [h2] at hsw
          exact Option.noConfusion hsw
        · rw [h1] at hcust
          exact custom_ne_common hcust.symm
      · rcases hbranch with ⟨hcom, _⟩ | ⟨_, hne, _⟩
        · rw [h1] at hcom
          exact custom_ne_common hcom
        · exact hne h2
      · rcases hbranch with ⟨hcom, _⟩ | ⟨hcust, _, _⟩
        · exact h1 hcom
        · exact h2 hcust
    · intro s lg e hpage herr
      rw [hfin remote] at hpage
      simp only [finishInstall] at hpage
      rw [HandlerResult.page.injEq] at hpage
      obtain ⟨hs, hlg⟩ := hpage
      rw [hs] at hlg
      rw [herr] at hlg
      subst hlg
      rw [renderLog.eq_def]
      constructor
      · refine ⟨"📦 Software Installation Log\n\n".toList ++
          "Server: ".toList ++ sip ++ "\n".toList ++ "Command: ".toList ++
          (buildScript server ic0).2 ++ "\n\n".toList,
          "Output:\n".toList ++ (remote s).1, ?_⟩
        simp [List.append_assoc]
      · refine ⟨"📦 Software Installation Log\n\n".toList ++
          "Server: ".toList ++ sip ++ "\n".toList ++ "Command: ".toList ++
          (buildScript server ic0).2 ++ "\n\n".toList ++
          ("❌ Installation failed: ".toList ++ e ++ "\n\n".toList), ?_⟩
        simp [List.append_assoc]

/-- Closed instance of `c8_error_policy`: the method check fails for GET,
and a failing remote call is rendered inside the log. -/
theorem c8_error_policy_witness :
    (∃ code msg, ∀ r2 : List Char → List Char × Option (List Char),
      installSoftwareHandler "GET".toList none "10.0.0.1".toList
        "common".toList "vim".toList []
        (fun _ => some (Server.mk "root".toList "pw".toList)) r2 =
        HandlerResult.httpError code msg) ∧
    ((("❌ Installation failed: ".toList ++ "boom".toList ++
        "\n\n".toList) <:+:
      renderLog "10.0.0.1".toList "apk add vim".toList "partial".toList
        (some "boom".toList)) ∧
     (("Output:\n".toList ++ "partial".toList) <:+
      renderLog "10.0.0.1".toList "apk add vim".toList "partial".toList
        (some "boom".toList))) :=
  ⟨(c8_error_policy "GET".toList none "10.0.0.1".toList "common".toList
      "vim".toList []
      (fun _ => some (Server.mk "root".toList "pw".toList))
      (fun _ => ("partial".toList, some "boom".toList))).1
      (Or.inl (by decide)),
   (c8_error_policy "POST".toList none "10.0.0.1".toList "common".toList
      "vim".toList []
      (fun _ => some (Server.mk "root".toList "pw".toList))
      (fun _ => ("partial".toList, some "boom".toList))).2
      "apk update && apk add vim".toList
      (renderLog "10.0.0.1".toList "apk add vim".toList "partial".toList
        (some "boom".toList))
      "boom".toList (by decide) (by decide)⟩

/-- C9: on every install command that can reach the non-root branch (a
catalog verb or `"apt install -y "` plus a sanitized token), the substring
`"apk add"` does not occur, so the branch's defensive rewriting of
`"apk add"` back to `"apt install -y"` is a no-op: the branch is equivalent
to the same branch without that replacement. -/
theorem c9_nonroot_normalization_noop (server : Server) (ic : List Char)
    (hu : server.RootUsername ≠ "root".toList)
    (hic : (∃ sw ∈ commonSoftware, ic = sw.Command) ∨
           (∃ raw, ic = "apt install -y ".toList ++
             sanitizePackageName raw)) :
    ¬ ("apk add".toList <:+: ic) ∧
    buildScript server ic = buildScriptPlain server ic := by
  have hni : ¬ ("apk add".toList <:+: ic) := by
    rcases hic with ⟨sw, hsw, hic2⟩ | ⟨raw, hic2⟩
    · subst hic2
      fin_cases hsw <;> decide
    · subst hic2
      exact apk_add_not_infix (fun a ha => sanitize_no_space ha)
  refine ⟨hni, ?_⟩
  unfold buildScript buildScriptPlain
  rw [if_neg hu, if_neg hu, replaceAll_of_not_infix hni]

/-- Closed instance of `c9_nonroot_normalization_noop`. -/
theorem c9_nonroot_normalization_noop_witness :
    ¬ ("apk add".toList <:+: "apt install -y git".toList) ∧
    buildScript ⟨"admin".toList, "pw".toList⟩ "apt install -y git".toList =
      buildScriptPlain ⟨"admin".toList, "pw".toList⟩
        "apt install -y git".toList :=
  c9_nonroot_normalization_noop ⟨"admin".toList, "pw".toList⟩
    "apt install -y git".toList (by decide)
    (Or.inl ⟨⟨"git".toList, "Version control system".toList,
      "apt install -y git".toList⟩, by decide, rfl⟩)
